import Mathlib

/-!
Verification of the mini_redis TTL-aware key-value storage engine
(`src/storage.cpp`, `include/storage.h`).

The embedding models:
* `Value`   — `std::variant<int, double, std::string, bool>` (the double
  payload is modelled as a rational number; the code only stores and
  copies doubles, never computes with them);
* `ValueEntry` — `{ InternalValue value; time_point expiry; bool hasExpiry }`;
  a default-constructed entry has `value = int 0`, `expiry = epoch`,
  `hasExpiry = false`, which we model as `⟨.vint 0, 0, false⟩`;
* the store map `std::unordered_map<std::string, ValueEntry>` — an
  association list with unique keys (`KeysNodup`); `map_[k] = e` is
  `insertKey`, `map_.erase` is `eraseKey`, `map_.find` is `lookupKey`;
* time — `std::chrono::steady_clock::time_point` as an integer number of
  milliseconds; `std::chrono::seconds(n)` is `n * 1000`;
  `duration_cast<seconds>` truncates toward zero (`Int.tdiv`);
* JSON persistence — the JSON object written by `saveToFile` and read by
  `loadFromFile` as a list of keyed records (`JFile`), abstracting the
  textual serialization.

Every method that in C++ reads the clock takes the current instant `now`
as an explicit argument; methods that mutate `map_` return the new map.
-/

namespace MiniRedis

/-- `std::variant<int, double, std::string, bool>` (`Storage::InternalValue`). -/
inductive Value where
  | vint : Int → Value
  | vfloat : Rat → Value
  | vstr : String → Value
  | vbool : Bool → Value
deriving DecidableEq, Repr

/-- `Storage::ValueEntry`: a value, an expiry instant (milliseconds), and a
flag telling whether the expiry is meaningful.  A default-constructed C++
entry is `⟨.vint 0, 0, false⟩`. -/
structure ValueEntry where
  value : Value
  expiry : Int
  hasExpiry : Bool
deriving DecidableEq, Repr

/-- The physical contents of `map_`, as an association list. -/
abbrev Store := List (String × ValueEntry)

/-- The keys of an association list. -/
def keysOf {α : Type} (l : List (String × α)) : List String :=
  l.map Prod.fst

/-- A well-formed map state: keys are pairwise distinct, as they are in
`std::unordered_map`. -/
def KeysNodup {α : Type} (l : List (String × α)) : Prop :=
  (keysOf l).Nodup

instance {α : Type} (l : List (String × α)) : Decidable (KeysNodup l) := by
  unfold KeysNodup; infer_instance

/-- `map_.find(k)`: the first entry stored under `k`. -/
def lookupKey {α : Type} : List (String × α) → String → Option α
  | [], _ => none
  | p :: rest, k => if p.1 = k then some p.2 else lookupKey rest k

/-- `map_[k] = v`: replace the entry stored under `k`, or append a fresh one. -/
def insertKey {α : Type} : List (String × α) → String → α → List (String × α)
  | [], k, v => [(k, v)]
  | p :: rest, k, v => if p.1 = k then (k, v) :: rest else p :: insertKey rest k v

/-- `map_.erase(k)` / `map_.erase(it)`: drop the entry stored under `k`. -/
def eraseKey {α : Type} : List (String × α) → String → List (String × α)
  | [], _ => []
  | p :: rest, k => if p.1 = k then eraseKey rest k else p :: eraseKey rest k

/-- The liveness test used throughout `storage.cpp`:
`it->second.hasExpiry && now >= it->second.expiry`. -/
def isDead (now : Int) (e : ValueEntry) : Bool :=
  e.hasExpiry && decide (e.expiry ≤ now)

namespace Storage

/-- `Storage::set(key, value)` — `map_[key] = ValueEntry{value, {}, false}`. -/
def set (m : Store) (k : String) (v : Value) : Store :=
  insertKey m k ⟨v, 0, false⟩

/-- `Storage::set(key, value, ttl_secs)` —
`entry.expiry = now + seconds(ttl_secs); entry.hasExpiry = true`. -/
def setTTL (m : Store) (now : Int) (k : String) (v : Value) (ttlSecs : Int) : Store :=
  insertKey m k ⟨v, now + ttlSecs * 1000, true⟩

/-- `Storage::get(key)`: returns `nullopt` when the key is missing; when the
found entry is expired, erases it and returns `nullopt`; otherwise returns
the value.  The second component is the map after the call. -/
def get (m : Store) (now : Int) (k : String) : Option Value × Store :=
  match lookupKey m k with
  | none => (none, m)
  | some e => if isDead now e then (none, eraseKey m k) else (some e.value, m)

/-- `Storage::del(key)` — `return map_.erase(key) > 0`. -/
def del (m : Store) (k : String) : Bool × Store :=
  ((lookupKey m k).isSome, eraseKey m k)

/-- `Storage::exists(key)`: same lookup, liveness check and lazy erase as
`get`, returning a boolean. -/
def existsKey (m : Store) (now : Int) (k : String) : Bool × Store :=
  match lookupKey m k with
  | none => (false, m)
  | some e => if isDead now e then (false, eraseKey m k) else (true, m)

/-- `Storage::size()` — `return map_.size()`: the raw structural count. -/
def size (m : Store) : Nat :=
  m.length

/-- `Storage::expire(key, ttl_secs)`: `false` when `map_.find` misses;
otherwise overwrites `hasExpiry`/`expiry` in place and returns `true`. -/
def expire (m : Store) (now : Int) (k : String) (ttlSecs : Int) : Bool × Store :=
  match lookupKey m k with
  | none => (false, m)
  | some e => (true, insertKey m k ⟨e.value, now + ttlSecs * 1000, true⟩)

/-- `Storage::dump()`: a snapshot of the non-expired key/value pairs; the
method is `const`, so the map itself is returned unchanged. -/
def dump (m : Store) (now : Int) : List (String × Value) × Store :=
  (m.filterMap (fun p => if isDead now p.2 then none else some (p.1, p.2.value)), m)

/-- One iteration of the `Storage::cleaner()` sweep: erase every entry with
`hasExpiry && now >= expiry`. -/
def cleanerSweep (m : Store) (now : Int) : Store :=
  m.filter (fun p => !isDead now p.2)

end Storage

/-!  JSON persistence (`saveToFile` / `loadFromFile`).  The JSON object is
modelled as a list of keyed records; the textual serialization performed by
`nlohmann::json` is abstracted away. -/

/-- The shape of a persisted `"value"` field, as `loadFromFile` classifies it:
boolean, integer number, float number, string, or anything else (`null`,
arrays, objects — the tags its `if` chain does not recognise). -/
inductive JValue where
  | jint : Int → JValue
  | jfloat : Rat → JValue
  | jstr : String → JValue
  | jbool : Bool → JValue
  | jnull : JValue
  | jother : JValue
deriving DecidableEq, Repr

/-- One record of the persisted JSON object:
`{"value": ..., "hasExpiry": ..., "ttl_remaining": <number or null>}`. -/
structure JRecord where
  value : JValue
  hasExpiry : Bool
  ttl_remaining : Option Int
deriving DecidableEq, Repr

/-- The persisted JSON object: records keyed by the stored keys. -/
abbrev JFile := List (String × JRecord)

/-- How `saveToFile`'s `std::visit` writes a stored value into JSON. -/
def encodeValue : Value → JValue
  | .vint i => .jint i
  | .vfloat q => .jfloat q
  | .vstr s => .jstr s
  | .vbool b => .jbool b

/-- How `loadFromFile` rebuilds a value from the persisted `"value"` field:
`is_boolean` / `is_number_integer` / `is_number_float` / `is_string` in that
order, and — the chain having no `else` — any other tag leaves the entry's
default-constructed value, the variant's first alternative `int 0`. -/
def decodeValue : JValue → Value
  | .jbool b => .vbool b
  | .jint i => .vint i
  | .jfloat q => .vfloat q
  | .jstr s => .vstr s
  | .jnull => .vint 0
  | .jother => .vint 0

/-- The record `saveToFile` writes for one non-expired entry:
`ttl_remaining = duration_cast<seconds>(expiry - now).count()` when the entry
has an expiry (truncation toward zero), `null` otherwise. -/
def encodeEntry (now : Int) (e : ValueEntry) : JRecord :=
  { value := encodeValue e.value
    hasExpiry := e.hasExpiry
    ttl_remaining := if e.hasExpiry then some ((e.expiry - now).tdiv 1000) else none }

/-- The entry `loadFromFile` rebuilds from one record:
`expiry = now + seconds(remaining)` when `hasExpiry` and `ttl_remaining` is
non-null; otherwise `expiry` keeps its default-constructed value. -/
def decodeEntry (now : Int) (r : JRecord) : ValueEntry :=
  { value := decodeValue r.value
    hasExpiry := r.hasExpiry
    expiry :=
      match r.hasExpiry, r.ttl_remaining with
      | true, some remaining => now + remaining * 1000
      | _, _ => 0 }

namespace Storage

/-- `Storage::saveToFile` (the JSON object it writes): every entry that is
not logically dead at `now` is emitted, expired entries are skipped. -/
def saveToFile (m : Store) (now : Int) : JFile :=
  m.filterMap (fun p => if isDead now p.2 then none else some (p.1, encodeEntry now p.2))

/-- `Storage::loadFromFile`: `none` models a file that cannot be opened
(returns `false`, the map untouched); otherwise the map is cleared and every
record of the parsed object is inserted. -/
def loadFromFile (m : Store) (file : Option JFile) (now : Int) : Bool × Store :=
  match file with
  | none => (false, m)
  | some records =>
      (true, records.foldl (fun acc p => insertKey acc p.1 (decodeEntry now p.2)) [])

end Storage

/-- The number of keys of the map that are alive (not logically dead) at
instant `now` — the keys on which `exists` would report `true`. -/
def countAlive (m : Store) (now : Int) : Nat :=
  (m.filter (fun p => !isDead now p.2)).length

/-- The number of physically present but logically dead entries. -/
def countDead (m : Store) (now : Int) : Nat :=
  (m.filter (fun p => isDead now p.2)).length

/-!  Association-list lemmas. -/

theorem lookupKey_insert_self {α : Type} (l : List (String × α)) (k : String) (v : α) :
    lookupKey (insertKey l k v) k = some v := by
  induction l with
  | nil => simp [insertKey, lookupKey]
  | cons p rest ih =>
      by_cases h : p.1 = k
      · simp [insertKey, lookupKey, h]
      · simp [insertKey, lookupKey, h, ih]

theorem lookupKey_insert_ne {α : Type} (l : List (String × α)) (k k2 : String) (v : α)
    (hne : k ≠ k2) : lookupKey (insertKey l k v) k2 = lookupKey l k2 := by
  induction l with
  | nil => simp [insertKey, lookupKey, hne]
  | cons p rest ih =>
      obtain ⟨a, b⟩ := p
      by_cases h : a = k
      · subst h
        simp [insertKey, lookupKey, hne]
      · by_cases h2 : a = k2
        · simp [insertKey, lookupKey, h, h2, Ne.symm hne]
        · simp [insertKey, lookupKey, h, h2, ih]

theorem lookupKey_erase_self {α : Type} (l : List (String × α)) (k : String) :
    lookupKey (eraseKey l k) k = none := by
  induction l with
  | nil => simp [eraseKey, lookupKey]
  | cons p rest ih =>
      by_cases h : p.1 = k
      · simp [eraseKey, h, ih]
      · simp [eraseKey, lookupKey, h, ih]

theorem lookupKey_eq_none_of_notMem {α : Type} (l : List (String × α)) (k : String)
    (h : k ∉ keysOf l) : lookupKey l k = none := by
  induction l with
  | nil => rfl
  | cons p rest ih =>
      simp only [keysOf, List.map_cons, List.mem_cons] at h
      push_neg at h
      simp only [lookupKey]
      rw [if_neg (fun hp => h.1 hp.symm)]
      exact ih (by simpa [keysOf] using h.2)

theorem insertKey_of_notMem {α : Type} (l : List (String × α)) (k : String) (v : α)
    (h : k ∉ keysOf l) : insertKey l k v = l ++ [(k, v)] := by
  induction l with
  | nil => rfl
  | cons p rest ih =>
      simp only [keysOf, List.map_cons, List.mem_cons] at h
      push_neg at h
      simp only [insertKey]
      rw [if_neg (fun hp => h.1 hp.symm)]
      simp [ih (by simpa [keysOf] using h.2)]

/-- Folding `map_[k] = g e` over records with pairwise-distinct keys, starting
from an accumulator holding none of those keys, appends the decoded records
in order. -/
theorem foldl_insert_of_nodup {α β : Type} (records : List (String × α))
    (g : α → β) :
    ∀ acc : List (String × β), KeysNodup records →
      (∀ k, k ∈ keysOf records → k ∉ keysOf acc) →
      records.foldl (fun acc p => insertKey acc p.1 (g p.2)) acc
        = acc ++ records.map (fun p => (p.1, g p.2)) := by
  induction records with
  | nil => intro acc _ _; simp
  | cons p rest ih =>
      intro acc hnd hdis
      simp only [KeysNodup, keysOf, List.map_cons, List.nodup_cons] at hnd
      have hp : p.1 ∉ keysOf acc :=
        hdis p.1 (by simp [keysOf])
      simp only [List.foldl_cons]
      rw [insertKey_of_notMem acc p.1 (g p.2) hp]
      rw [ih (acc ++ [(p.1, g p.2)]) hnd.2 (by
        intro k hk hmem
        simp only [keysOf, List.map_append, List.map_cons, List.map_nil,
          List.mem_append, List.mem_cons] at hmem
        rcases hmem with hmem | hmem
        · exact hdis k (List.mem_cons_of_mem _ hk) hmem
        · rcases hmem with hmem | hmem
          · exact hnd.1 (hmem ▸ hk)
          · simp at hmem)]
      simp

theorem lookupKey_map {α β : Type} (l : List (String × α)) (g : α → β) (k : String) :
    lookupKey (l.map (fun p => (p.1, g p.2))) k = (lookupKey l k).map g := by
  induction l with
  | nil => rfl
  | cons p rest ih =>
      by_cases h : p.1 = k <;> simp [lookupKey, h, ih]

/-- Looking up a key in a liveness-filtered, per-entry-transformed copy of a
map with pairwise-distinct keys. -/
theorem lookupKey_filterMap_alive {α β : Type} (m : List (String × α))
    (d : α → Bool) (g : α → β) (k : String) (hnd : KeysNodup m) :
    lookupKey (m.filterMap (fun p => if d p.2 then none else some (p.1, g p.2))) k
      = (lookupKey m k).bind (fun e => if d e then none else some (g e)) := by
  induction m with
  | nil => rfl
  | cons p rest ih =>
      simp only [KeysNodup, keysOf, List.map_cons, List.nodup_cons] at hnd
      have ihr := ih hnd.2
      by_cases h : p.1 = k
      · subst h
        have hrest : lookupKey
            (rest.filterMap (fun p => if d p.2 then none else some (p.1, g p.2))) p.1
            = none := by
          apply lookupKey_eq_none_of_notMem
          intro hm
          apply hnd.1
          simp only [keysOf, List.map_filterMap] at hm
          rcases List.mem_filterMap.mp hm with ⟨q, hq, hval⟩
          by_cases hd : d q.2 <;> simp [hd] at hval
          exact hval ▸ List.mem_map_of_mem Prod.fst hq
        by_cases hd : d p.2
        · simp [List.filterMap_cons, hd, lookupKey, hrest]
        · simp [List.filterMap_cons, hd, lookupKey]
      · by_cases hd : d p.2
        · simp [List.filterMap_cons, hd, lookupKey, h, ihr]
        · simp [List.filterMap_cons, hd, lookupKey, h, ihr]

/-- The filtered copy keeps keys pairwise distinct. -/
theorem keysNodup_filterMap_alive {α β : Type} (m : List (String × α))
    (d : α → Bool) (g : α → β) (hnd : KeysNodup m) :
    KeysNodup (m.filterMap (fun p => if d p.2 then none else some (p.1, g p.2))) := by
  induction m with
  | nil => exact List.nodup_nil
  | cons p rest ih =>
      obtain ⟨a, b⟩ := p
      simp only [KeysNodup, keysOf, List.map_cons, List.nodup_cons] at hnd
      have ihr := ih hnd.2
      have hnotmem : a ∉ keysOf
          (rest.filterMap (fun p => if d p.2 then none else some (p.1, g p.2))) := by
        intro hm
        apply hnd.1
        simp only [keysOf, List.map_filterMap] at hm
        rcases List.mem_filterMap.mp hm with ⟨q, hq, hval⟩
        by_cases hdq : d q.2 <;> simp [hdq] at hval
        exact hval ▸ List.mem_map_of_mem Prod.fst hq
      by_cases hd : d b
      · simpa [List.filterMap_cons, hd] using ihr
      · rw [List.filterMap_cons]
        simp only [if_neg hd]
        unfold KeysNodup keysOf
        rw [List.map_cons, List.nodup_cons]
        exact ⟨by simpa [keysOf] using hnotmem, ihr⟩

theorem decode_encode_value (v : Value) : decodeValue (encodeValue v) = v := by
  cases v <;> rfl

theorem lookupKey_eq_some_of_mem {α : Type} (l : List (String × α)) (k : String) (v : α)
    (hnd : KeysNodup l) (hm : (k, v) ∈ l) : lookupKey l k = some v := by
  induction l with
  | nil => cases hm
  | cons p rest ih =>
      obtain ⟨a, b⟩ := p
      simp only [KeysNodup, keysOf, List.map_cons, List.nodup_cons] at hnd
      rcases List.mem_cons.mp hm with h | h
      · cases h
        simp [lookupKey]
      · have hka : a ≠ k := by
          intro he
          subst he
          exact hnd.1 (List.mem_map_of_mem Prod.fst h)
        simp [lookupKey, hka, ih hnd.2 h]

/-- Truncating division by 1000 (seconds out of milliseconds) under- but
never over-shoots, by strictly less than one second, on positive durations. -/
theorem tdiv_thousand_bounds (d : Int) (hd : 0 < d) :
    1000 * (d.tdiv 1000) ≤ d ∧ d < 1000 * (d.tdiv 1000) + 1000 := by
  have heq := Int.tdiv_add_tmod d 1000
  have h0 : 0 ≤ Int.tmod d 1000 := Int.tmod_nonneg 1000 (le_of_lt hd)
  have h1 : Int.tmod d 1000 < 1000 := Int.tmod_lt_of_pos d (by norm_num)
  omega

/-!  The claims. -/

/-- C1 counterexample: a store whose physical map holds only one expired
entry (expiry 1 s, observed at 2 s) reports `size() = 1`, not the alive
count 0 — `size` is a raw structural count, refuting the claimed liveness
filtering. -/
theorem size_counts_dead_entries_cex :
    Storage.size [("e", ⟨.vint 1, 1000, true⟩)] = 1 ∧
    countAlive [("e", ⟨.vint 1, 1000, true⟩)] 2000 = 0 ∧
    Storage.size [("e", ⟨.vint 1, 1000, true⟩)]
      ≠ countAlive [("e", ⟨.vint 1, 1000, true⟩)] 2000 := by
  decide

/-- C1 (amended): `size()` returns the raw physical entry count: at any
observation instant it equals the alive count plus the count of logically
dead entries still physically present, and it coincides with the count of
keys on which `exists` is true exactly when no dead entry remains unswept. -/
theorem size_eq_countAlive_add_countDead (m : Store) (now : Int) :
    Storage.size m = countAlive m now + countDead m now ∧
    (Storage.size m = countAlive m now ↔ countDead m now = 0) := by
  have h : Storage.size m = countAlive m now + countDead m now := by
    unfold Storage.size countAlive countDead
    rw [List.length_eq_length_filter_add (fun p => isDead now p.2)]
    omega
  exact ⟨h, by omega⟩

/-- C2: the claim (`expire` on a logically dead key reports false and does
not revive it) is the documented intent, but `Storage::expire` only checks
physical presence: at instant 5000 the key `"k"` (expired at 1000) is dead —
`exists` says false — yet `expire` returns true and re-arms the entry so that
it is alive again at instant 6000. -/
theorem expire_resurrects_dead_entry :
    (Storage.existsKey [("k", ⟨.vstr "v", 1000, true⟩)] 5000 "k").1 = false ∧
    (Storage.expire [("k", ⟨.vstr "v", 1000, true⟩)] 5000 "k" 10).1 = true ∧
    (Storage.existsKey
      (Storage.expire [("k", ⟨.vstr "v", 1000, true⟩)] 5000 "k" 10).2 6000 "k").1 = true := by
  decide

/-- C4 counterexample: on a store holding `"d"` as a physically present but
logically dead entry (expired at 1 s, observed at 2 s), `del("d")` returns
true although the key was not alive immediately before the call — refuting
"returns true iff alive". -/
theorem del_true_on_dead_entry_cex :
    (Storage.existsKey [("d", ⟨.vint 0, 1000, true⟩)] 2000 "d").1 = false ∧
    (Storage.del [("d", ⟨.vint 0, 1000, true⟩)] "d").1 = true := by
  decide

/-- C4 (amended): `del(k)` returns true iff a physical entry for `k` was
present (alive or logically dead) immediately before the call, and
immediately after the call `exists(k)` returns false. -/
theorem del_iff_physically_present (m : Store) (k : String) (now : Int) :
    (Storage.del m k).1 = (lookupKey m k).isSome ∧
    (Storage.existsKey (Storage.del m k).2 now k).1 = false := by
  refine ⟨rfl, ?_⟩
  unfold Storage.del Storage.existsKey
  rw [lookupKey_erase_self]

/-- C7: `set(k, v, ttl)` with `ttl ≤ 0` is accepted and yields an entry that
is logically dead from the moment of the call on: at every instant from the
call time onward, `exists(k)` is false and `get(k)` is absent. -/
theorem setTTL_nonpositive_immediately_dead (m : Store) (now now2 : Int)
    (k : String) (v : Value) (ttlSecs : Int)
    (httl : ttlSecs ≤ 0) (hnow : now ≤ now2) :
    (Storage.existsKey (Storage.setTTL m now k v ttlSecs) now2 k).1 = false ∧
    (Storage.get (Storage.setTTL m now k v ttlSecs) now2 k).1 = none := by
  have hfind : lookupKey (Storage.setTTL m now k v ttlSecs) k
      = some ⟨v, now + ttlSecs * 1000, true⟩ :=
    lookupKey_insert_self m k _
  have hdead : isDead now2 ⟨v, now + ttlSecs * 1000, true⟩ = true := by
    simp only [isDead, Bool.true_and, decide_eq_true_eq]
    omega
  constructor
  · unfold Storage.existsKey
    rw [hfind]
    simp [hdead]
  · unfold Storage.get
    rw [hfind]
    simp [hdead]

/-- C7 witness: concrete instance at `ttl = -1`, call at instant 3,
observed at instant 3. -/
theorem setTTL_nonpositive_immediately_dead_witness :
    (Storage.existsKey (Storage.setTTL [] 3 "k" (.vint 5) (-1)) 3 "k").1 = false ∧
    (Storage.get (Storage.setTTL [] 3 "k" (.vint 5) (-1)) 3 "k").1 = none :=
  setTTL_nonpositive_immediately_dead [] 3 3 "k" (.vint 5) (-1)
    (by decide) (by decide)

/-- C8: `set(k, v)` without TTL makes `get(k)` return `v` at every later
instant, the resulting entry carries no expiry regardless of any TTL
previously attached to `k`, and a second `set(k, v2)` overwrites so that
`get(k)` returns `v2` (last-writer-wins). -/
theorem set_then_get_last_writer_wins (m : Store) (now : Int) (k : String)
    (v v2 : Value) :
    (Storage.get (Storage.set m k v) now k).1 = some v ∧
    lookupKey (Storage.set m k v) k = some ⟨v, 0, false⟩ ∧
    (Storage.get (Storage.set (Storage.set m k v) k v2) now k).1 = some v2 := by
  have h1 : lookupKey (Storage.set m k v) k = some ⟨v, 0, false⟩ :=
    lookupKey_insert_self m k _
  have h2 : lookupKey (Storage.set (Storage.set m k v) k v2) k = some ⟨v2, 0, false⟩ :=
    lookupKey_insert_self _ k _
  refine ⟨?_, h1, ?_⟩
  · unfold Storage.get
    rw [h1]
    simp [isDead]
  · unfold Storage.get
    rw [h2]
    simp [isDead]

/-- C10: loading from a file that cannot be opened returns false and leaves
the store completely unchanged — the map is cleared only after the input has
been opened successfully. -/
theorem load_unopenable_file_preserves_store (m : Store) (now : Int) :
    Storage.loadFromFile m none now = (false, m) ∧
    (∀ k : String, Storage.get (Storage.loadFromFile m none now).2 now k
      = Storage.get m now k) ∧
    Storage.size (Storage.loadFromFile m none now).2 = Storage.size m :=
  ⟨rfl, fun _ => rfl, rfl⟩

/-- C5: `get` returns the stored value iff the key is present and not
logically dead at lookup time; on finding a dead entry, `get` erases it
(lazy cleanup) before reporting absent; `exists` performs the same liveness
check and the same cleanup, reporting true exactly when `get` would return a
value; when the entry is alive or absent, the map is left untouched. -/
theorem get_exists_liveness_and_lazy_cleanup (m : Store) (now : Int) (k : String) :
    (Storage.get m now k).1
      = (lookupKey m k).bind (fun e => if isDead now e then none else some e.value) ∧
    (Storage.existsKey m now k).1 = ((Storage.get m now k).1).isSome ∧
    (Storage.existsKey m now k).2 = (Storage.get m now k).2 ∧
    (∀ e, lookupKey m k = some e → isDead now e = true →
      (Storage.get m now k).2 = eraseKey m k ∧
      lookupKey (Storage.get m now k).2 k = none) ∧
    (∀ e, lookupKey m k = some e → isDead now e = false → (Storage.get m now k).2 = m) ∧
    (lookupKey m k = none → (Storage.get m now k).2 = m) := by
  unfold Storage.get Storage.existsKey
  cases hfind : lookupKey m k with
  | none => simp
  | some e =>
      by_cases hd : isDead now e
      · simp [hd, lookupKey_erase_self]
      · simp [hd]

/-- C5 witness: at instant 2000 the key `"x"` (expired at 1000) is found
dead, so `get` erases it and afterwards the entry is physically gone. -/
theorem get_exists_liveness_and_lazy_cleanup_witness :
    (Storage.get [("x", ⟨.vint 3, 1000, true⟩)] 2000 "x").2
      = eraseKey [("x", ⟨.vint 3, 1000, true⟩)] "x" ∧
    lookupKey (Storage.get [("x", ⟨.vint 3, 1000, true⟩)] 2000 "x").2 "x" = none :=
  (get_exists_liveness_and_lazy_cleanup [("x", ⟨.vint 3, 1000, true⟩)] 2000 "x").2.2.2.1
    ⟨.vint 3, 1000, true⟩ (by decide) (by decide)

/-- C9: `dump` never modifies the store — the map after the call is exactly
the map before it, dead entries included — while the returned snapshot
contains exactly the alive keys with their values. -/
theorem dump_excludes_dead_without_erasing (m : Store) (now : Int) :
    (Storage.dump m now).2 = m ∧
    Storage.size (Storage.dump m now).2 = Storage.size m ∧
    (KeysNodup m → ∀ k, lookupKey (Storage.dump m now).1 k
      = (lookupKey m k).bind (fun e => if isDead now e then none else some e.value)) := by
  refine ⟨rfl, rfl, fun hnd k => ?_⟩
  exact lookupKey_filterMap_alive m (isDead now) (fun e => e.value) k hnd

/-- C9 witness: a store holding one alive and one dead entry; after `dump`
the physical map is unchanged and the dead key is absent from the snapshot. -/
theorem dump_excludes_dead_without_erasing_witness :
    (Storage.dump [("a", ⟨.vint 1, 0, false⟩), ("b", ⟨.vint 2, 1000, true⟩)] 2000).2
      = [("a", ⟨.vint 1, 0, false⟩), ("b", ⟨.vint 2, 1000, true⟩)] ∧
    lookupKey
      (Storage.dump [("a", ⟨.vint 1, 0, false⟩), ("b", ⟨.vint 2, 1000, true⟩)] 2000).1 "b"
      = none := by
  refine ⟨(dump_excludes_dead_without_erasing _ 2000).1, ?_⟩
  rw [(dump_excludes_dead_without_erasing
    [("a", ⟨.vint 1, 0, false⟩), ("b", ⟨.vint 2, 1000, true⟩)] 2000).2.2 (by decide) "b"]
  decide

/-- C3 counterexample: a record whose `"value"` field is `null` — a tag the
decoder's `if` chain does not recognise — does not fail the load: the call
returns true and replaces the store with that record, its value silently
defaulted to `int 0`, refuting "fails as a whole with a format error". -/
theorem load_accepts_unknown_tag_cex :
    Storage.loadFromFile [("old", ⟨.vstr "o", 0, false⟩)]
        (some [("bad", ⟨.jnull, false, none⟩)]) 0
      = (true, [("bad", ⟨.vint 0, 0, false⟩)]) := by
  decide

/-- C3 (amended): `loadFromFile` performs no tag validation at all: every
record of the input is applied, a record with an unknown or malformed tag
(`null`, array, object) being stored with the default-constructed value
`int 0`, and the call reports success. -/
theorem load_applies_all_records (m : Store) (records : JFile) (now : Int)
    (hnd : KeysNodup records) :
    (Storage.loadFromFile m (some records) now).1 = true ∧
    (∀ k r, (k, r) ∈ records →
      lookupKey (Storage.loadFromFile m (some records) now).2 k
        = some (decodeEntry now r)) ∧
    decodeValue .jnull = .vint 0 ∧ decodeValue .jother = .vint 0 := by
  have hfold : (Storage.loadFromFile m (some records) now).2
      = records.map (fun p => (p.1, decodeEntry now p.2)) := by
    show records.foldl (fun acc p => insertKey acc p.1 (decodeEntry now p.2)) [] = _
    exact foldl_insert_of_nodup records (decodeEntry now) [] hnd
      (fun _ _ hk => by simp [keysOf] at hk)
  refine ⟨rfl, ?_, rfl, rfl⟩
  intro k r hm
  rw [hfold, lookupKey_map, lookupKey_eq_some_of_mem records k r hnd hm]
  rfl

/-- C3 witness: an input consisting of one `null`-tagged record with a TTL
loads successfully, the record decoded with value `int 0`. -/
theorem load_applies_all_records_witness :
    (Storage.loadFromFile [("old", ⟨.vstr "o", 0, false⟩)]
        (some [("bad", ⟨.jnull, true, some 7⟩)]) 0).1 = true ∧
    lookupKey (Storage.loadFromFile [("old", ⟨.vstr "o", 0, false⟩)]
        (some [("bad", ⟨.jnull, true, some 7⟩)]) 0).2 "bad"
      = some (decodeEntry 0 ⟨.jnull, true, some 7⟩) :=
  ⟨(load_applies_all_records [("old", ⟨.vstr "o", 0, false⟩)]
      [("bad", ⟨.jnull, true, some 7⟩)] 0 (by decide)).1,
   (load_applies_all_records [("old", ⟨.vstr "o", 0, false⟩)]
      [("bad", ⟨.jnull, true, some 7⟩)] 0 (by decide)).2.1 "bad" _ (by decide)⟩

/-- C6 counterexample: a key alive at save time with half a second of TTL
left (expiry 500 ms, saved at instant 0) is written with
`ttl_remaining = 0` (remaining-seconds truncation) and therefore loads back
immediately dead: the loaded store's alive key set does not equal the
original's, refuting the claimed round-trip equality of alive key sets. -/
theorem roundtrip_drops_subsecond_ttl_cex :
    (Storage.existsKey [("a", ⟨.vint 1, 500, true⟩)] 0 "a").1 = true ∧
    (Storage.loadFromFile [] (some (Storage.saveToFile [("a", ⟨.vint 1, 500, true⟩)] 0)) 0).1
      = true ∧
    (Storage.existsKey
      (Storage.loadFromFile []
        (some (Storage.saveToFile [("a", ⟨.vint 1, 500, true⟩)] 0)) 0).2 0 "a").1
      = false := by
  decide

/-- C6 (amended): an immediate `load` of `save(S)` into a fresh store
succeeds and reproduces exactly the entries of `S` alive at save time — each
with its value (variant tag included) and its has-expiry flag preserved, and
with an expiry instant within one second (strictly below the original, by at
most 999 ms) of the original — while absent and dead keys stay absent.  The
alive key set is preserved exactly for the entries with no expiry or with at
least one full second remaining; an alive entry with sub-second remaining
TTL loads as immediately dead (remaining-seconds truncation). -/
theorem save_load_roundtrip (m : Store) (now : Int) (hnd : KeysNodup m) :
    (Storage.loadFromFile [] (some (Storage.saveToFile m now)) now).1 = true ∧
    (∀ k e, lookupKey m k = some e → isDead now e = false →
      ∃ e2, lookupKey (Storage.loadFromFile [] (some (Storage.saveToFile m now)) now).2 k
          = some e2 ∧
        e2.value = e.value ∧
        e2.hasExpiry = e.hasExpiry ∧
        (e.hasExpiry = true → e.expiry - 1000 < e2.expiry ∧ e2.expiry ≤ e.expiry) ∧
        (isDead now e2 = false ↔ (e.hasExpiry = false ∨ now + 1000 ≤ e.expiry))) ∧
    (∀ k, lookupKey m k = none →
      lookupKey (Storage.loadFromFile [] (some (Storage.saveToFile m now)) now).2 k = none) ∧
    (∀ k e, lookupKey m k = some e → isDead now e = true →
      lookupKey (Storage.loadFromFile [] (some (Storage.saveToFile m now)) now).2 k = none) := by
  have hsavend : KeysNodup (Storage.saveToFile m now) :=
    keysNodup_filterMap_alive m (isDead now) (encodeEntry now) hnd
  have hload : (Storage.loadFromFile [] (some (Storage.saveToFile m now)) now).2
      = (Storage.saveToFile m now).map (fun p => (p.1, decodeEntry now p.2)) := by
    show (Storage.saveToFile m now).foldl
      (fun acc p => insertKey acc p.1 (decodeEntry now p.2)) [] = _
    exact foldl_insert_of_nodup _ (decodeEntry now) [] hsavend
      (fun _ _ hk => by simp [keysOf] at hk)
  have hlook : ∀ k,
      lookupKey (Storage.loadFromFile [] (some (Storage.saveToFile m now)) now).2 k
        = (lookupKey m k).bind (fun e => if isDead now e then none
            else some (decodeEntry now (encodeEntry now e))) := by
    intro k
    rw [hload, lookupKey_map]
    unfold Storage.saveToFile
    rw [lookupKey_filterMap_alive m (isDead now) (encodeEntry now) k hnd]
    cases lookupKey m k with
    | none => rfl
    | some e => by_cases hd : isDead now e <;> simp [hd]
  refine ⟨rfl, ?_, ?_, ?_⟩
  · intro k e hfind halive
    refine ⟨decodeEntry now (encodeEntry now e), ?_, decode_encode_value e.value, rfl, ?_, ?_⟩
    · rw [hlook k, hfind]
      simp [halive]
    · intro hE
      have hlt : now < e.expiry := by
        simp only [isDead, hE, Bool.true_and, decide_eq_false_iff_not, not_le] at halive
        exact halive
      have hb := tdiv_thousand_bounds (e.expiry - now) (by omega)
      have hexp : (decodeEntry now (encodeEntry now e)).expiry
          = now + (e.expiry - now).tdiv 1000 * 1000 := by
        simp [decodeEntry, encodeEntry, hE]
      rw [hexp]
      omega
    · by_cases hE : e.hasExpiry = true
      · have hlt : now < e.expiry := by
          simp only [isDead, hE, Bool.true_and, decide_eq_false_iff_not, not_le] at halive
          exact halive
        have hb := tdiv_thousand_bounds (e.expiry - now) (by omega)
        have hexp : decodeEntry now (encodeEntry now e)
            = ⟨decodeValue (encodeValue e.value),
                now + (e.expiry - now).tdiv 1000 * 1000, true⟩ := by
          simp [decodeEntry, encodeEntry, hE]
        rw [hexp]
        simp only [isDead, Bool.true_and, decide_eq_false_iff_not, not_le, hE,
          Bool.true_eq_false, false_or]
        constructor
        · intro h
          omega
        · intro h
          omega
      · have hEf : e.hasExpiry = false := by
          simpa using hE
        have hexp : decodeEntry now (encodeEntry now e)
            = ⟨decodeValue (encodeValue e.value), 0, false⟩ := by
          simp [decodeEntry, encodeEntry, hEf]
        rw [hexp]
        simp [isDead, hEf]
  · intro k hfind
    rw [hlook k, hfind]
    rfl
  · intro k e hfind hdead
    rw [hlook k, hfind]
    simp [hdead]

/-- C6 witness: a one-entry store with five full seconds of TTL remaining
(expiry 5000 ms, saved and reloaded at instant 0) round-trips to exactly the
original entry. -/
theorem save_load_roundtrip_witness :
    (Storage.loadFromFile []
      (some (Storage.saveToFile [("a", ⟨.vint 7, 5000, true⟩)] 0)) 0).1 = true ∧
    lookupKey (Storage.loadFromFile []
      (some (Storage.saveToFile [("a", ⟨.vint 7, 5000, true⟩)] 0)) 0).2 "a"
      = some ⟨.vint 7, 5000, true⟩ := by
  refine ⟨(save_load_roundtrip [("a", ⟨.vint 7, 5000, true⟩)] 0 (by decide)).1, ?_⟩
  decide

end MiniRedis
